import Mathlib

/-!
Shallow embedding of `src/DesktopApp/browser/extension_util.cc`
(namespace `client::extension_util`) of the bling-desktop repository.

Strings are modelled as `List Char`.  The CEF host environment — the
resources directory returned by `GetResourcesPath()`, the binary-resource
loader `LoadBinaryResource`, and the JSON parser
`CefParseJSONAndReturnError` — is modelled as an explicit `Env` record of
parameters, since those collaborators live outside this translation unit.
The CEF task runner (`CefCurrentlyOn` / `CefPostTask`) is modelled by an
event-trace semantics: each function produces the list of observable
events of one pipeline invocation, and a `CefPostTask` that re-invokes the
same function on its target thread is recorded as a `repost` event
followed by the trace of the re-executed body on that thread (the posted
task re-runs the function where its thread guard passes, so the single
guaranteed re-execution is inlined).
-/

namespace ExtensionUtil

/-- A C++ `std::string`, modelled as a list of characters. -/
abbrev Str := List Char

/-- The character substitution performed by
`std::replace(internal_path.begin(), internal_path.end(), '\\', '/')`
in `GetInternalPath` (the `OS_WIN` build of lines 38-41, which normalizes
path separators; the spec describes this normalization as part of the
resolver's behavior). -/
def normChar (c : Char) : Char := if c = '\\' then '/' else c

/-- `GetInternalPath` (extension_util.cc lines 29-44): when the resources
path — the result of `GetResourcesPath()`, passed here as `root` — is
nonempty and a prefix of `path` (`extension_path.find(resources_path) == 0`),
strip it; then normalize `'\\'` separators to `'/'`. -/
def getInternalPath (root path : Str) : Str :=
  (if !root.isEmpty && root.isPrefixOf path then path.drop root.length else path).map
    normChar

/-- The single allowlisted internal extension name (line 110). -/
def setPageColor : Str := "set_page_color".data

/-- The compiled-in allowlist of internally handled extensions
(`static const char* extensions[] = {"set_page_color"}`, line 110). -/
def internalExtensions : List Str := [setPageColor]

/-- `IsInternalExtension` (lines 108-123): true when the stripped,
normalized path exactly matches an allowlisted name or has it as its
first directory component (`internal_path.find(extension + '/') == 0`). -/
def isInternalExtension (root path : Str) : Bool :=
  internalExtensions.any fun ext =>
    getInternalPath root path == ext ||
      (ext ++ ['/']).isPrefixOf (getInternalPath root path)

/-- The literal `"extensions/"` prepended by
`GetInternalExtensionResourcePath` (line 127). -/
def extensionsRoot : Str := "extensions/".data

/-- `GetInternalExtensionResourcePath` (lines 125-128). -/
def getInternalExtensionResourcePath (root path : Str) : Str :=
  extensionsRoot ++ getInternalPath root path

/-- `GetExtensionResourcePath` (lines 130-138); the `bool* internal`
out-parameter is modelled as the second component of the returned pair. -/
def getExtensionResourcePath (root path : Str) : Str × Bool :=
  (if isInternalExtension root path then getInternalExtensionResourcePath root path
   else path,
   isInternalExtension root path)

/-- The CEF value shapes relevant to the manifest pipeline (`CefValue`). -/
inductive CefValue where
  | null
  | boolean (b : Bool)
  | integer (n : Int)
  | str (s : Str)
  | dict (entries : List (Str × CefValue))
  | listv (elems : List CefValue)

instance : Inhabited CefValue := ⟨CefValue.null⟩

/-- A `CefDictionaryValue`: an association list from keys to values. -/
abbrev CefDict := List (Str × CefValue)

/-- `CefDictionaryValue::GetDictionary(key)`: the nested dictionary when
the key holds one, otherwise null (modelled as `none`). -/
def getDictionary (d : CefDict) (key : Str) : Option CefDict :=
  match d.lookup key with
  | some (CefValue.dict d2) => some d2
  | _ => none

/-- `CefDictionaryValue::GetString(key)`: the string value when the key
holds one, otherwise the empty string. -/
def getString (d : CefDict) (key : Str) : Str :=
  match d.lookup key with
  | some (CefValue.str s) => s
  | _ => []

/-- The parts of a `CefExtension` consumed by extension_util.cc:
`GetPath()`, `GetIdentifier()`, `GetManifest()`. -/
structure CefExtension where
  path : Str
  identifier : Str
  manifest : CefDict

/-- The literal scheme prefix of `GetExtensionOrigin` (line 207). -/
def chromeExtensionScheme : Str := "chrome-extension://".data

/-- `GetExtensionOrigin` (lines 206-208). -/
def getExtensionOrigin (extensionId : Str) : Str :=
  chromeExtensionScheme ++ extensionId ++ ['/']

/-- Manifest key `"browser_action"`. -/
def browserActionKey : Str := "browser_action".data

/-- Manifest key `"default_popup"`. -/
def defaultPopupKey : Str := "default_popup".data

/-- Manifest key `"default_icon"`. -/
def defaultIconKey : Str := "default_icon".data

/-- `GetExtensionURL` (lines 210-221). -/
def getExtensionURL (ext : CefExtension) : Str :=
  match getDictionary ext.manifest browserActionKey with
  | some browserAction =>
      if !(getString browserAction defaultPopupKey).isEmpty then
        getExtensionOrigin ext.identifier ++ getString browserAction defaultPopupKey
      else []
  | none => []

/-- Modelled from the spec: `file_util::JoinPath` is declared in
`browser/file_util.h`, which is not among the provided sources; the spec
writes the joined manifest location as `<extensionPath>/manifest.json`,
so joining inserts a single `'/'` between the two components. -/
def joinPath (a b : Str) : Str := a ++ '/' :: b

/-- `GetExtensionIconPath` (lines 223-236); the `bool* internal`
out-parameter becomes an `Option Bool`: `none` when the function returns
the empty string without writing through the pointer. -/
def getExtensionIconPath (root : Str) (ext : CefExtension) : Str × Option Bool :=
  match getDictionary ext.manifest browserActionKey with
  | some browserAction =>
      if !(getString browserAction defaultIconKey).isEmpty then
        ((getExtensionResourcePath root
            (joinPath ext.path (getString browserAction defaultIconKey))).1,
         some (getExtensionResourcePath root
            (joinPath ext.path (getString browserAction defaultIconKey))).2)
      else ([], none)
  | none => ([], none)

/-- CEF thread identifiers used by the pipeline: `TID_UI`, `TID_FILE`
(the Disk-I/O thread) and `TID_IO`. -/
inductive Tid where
  | tidUi
  | tidFile
  | tidIo

deriving instance DecidableEq for Tid

/-- Observable events of one asynchronous pipeline invocation. -/
inductive Event where
  | repost (target : Tid)
  | readAttempt (resourcePath : Str)
  | logError
  | deliver (manifest : Option CefDict) (tid : Tid)
  | engineLoad (path : Str) (manifest : Option CefDict) (tid : Tid)
  | registerProvider (origin resourcePath : Str) (priority : Nat)
  | assertFail

/-- The host environment: the result of `GetResourcesPath()` (a directory
path already carrying its trailing separator, or empty when `CefGetPath`
fails), the binary-resource loader (`none` models a failed
`LoadBinaryResource`), and the JSON parser (`none` models a null
`CefValue` returned by `CefParseJSONAndReturnError`). -/
structure Env where
  resourcesPath : Str
  loadBinaryResource : Str → Option Str
  parseJson : Str → Option CefValue

/-- A bound `ManifestCallback`: given the manifest (or null) and the
thread it is invoked on, the trace of events of running it. -/
abbrev ManifestCallback := Option CefDict → Tid → List Event

/-- `RunManifestCallback` (lines 49-57): when not on the UI thread, post a
task that re-runs `RunManifestCallback` on `TID_UI`, where the guard
passes and the callback runs. -/
def runManifestCallback (cb : ManifestCallback) (cur : Tid) (m : Option CefDict) :
    List Event :=
  if cur = Tid.tidUi then cb m cur
  else Event.repost Tid.tidUi :: cb m Tid.tidUi

/-- The literal file name `"manifest.json"` (line 70). -/
def manifestJson : Str := "manifest.json".data

/-- The `manifest_path` local of `GetInternalManifest` (lines 69-70). -/
def manifestPathOf (env : Env) (extensionPath : Str) : Str :=
  getInternalExtensionResourcePath env.resourcesPath (joinPath extensionPath manifestJson)

/-- The `TID_FILE` body of `GetInternalManifest` (lines 69-92): attempt the
binary-resource read; on failure or empty contents log and deliver null;
parse the JSON; on a null value or non-dictionary top level log and
deliver null; otherwise deliver the dictionary. -/
def getInternalManifestBody (env : Env) (cb : ManifestCallback) (extensionPath : Str) :
    List Event :=
  Event.readAttempt (manifestPathOf env extensionPath) ::
    match env.loadBinaryResource (manifestPathOf env extensionPath) with
    | none => Event.logError :: runManifestCallback cb Tid.tidFile none
    | some contents =>
        if contents.isEmpty then Event.logError :: runManifestCallback cb Tid.tidFile none
        else
          match env.parseJson contents with
          | some (CefValue.dict d) => runManifestCallback cb Tid.tidFile (some d)
          | _ => Event.logError :: runManifestCallback cb Tid.tidFile none

/-- `GetInternalManifest` (lines 60-93): re-posted to `TID_FILE` when
entered on any other thread, then the body runs on the FILE thread. -/
def getInternalManifest (env : Env) (cb : ManifestCallback) (cur : Tid)
    (extensionPath : Str) : List Event :=
  if cur = Tid.tidFile then getInternalManifestBody env cb extensionPath
  else Event.repost Tid.tidFile :: getInternalManifestBody env cb extensionPath

/-- `LoadExtensionWithManifest` (lines 95-104): invokes the engine's
`CefRequestContext::LoadExtension` on the thread it is called on (the
`CEF_REQUIRE_UI_THREAD()` there expects that thread to be `TID_UI`). -/
def loadExtensionWithManifest (extensionPath : Str) : ManifestCallback :=
  fun m tid => [Event.engineLoad extensionPath m tid]

/-- The `TID_UI` body of `LoadExtension` (lines 163-171): internal
extensions read the manifest asynchronously; external extensions are
handed to the engine directly with a null manifest. -/
def loadExtensionBody (env : Env) (extensionPath : Str) : List Event :=
  if isInternalExtension env.resourcesPath extensionPath then
    getInternalManifest env (loadExtensionWithManifest extensionPath) Tid.tidUi
      extensionPath
  else [Event.engineLoad extensionPath none Tid.tidUi]

/-- `LoadExtension` (lines 153-172): re-posted to `TID_UI` when entered on
any other thread, then the body runs on the UI thread. -/
def loadExtension (env : Env) (cur : Tid) (extensionPath : Str) : List Event :=
  if cur = Tid.tidUi then loadExtensionBody env extensionPath
  else Event.repost Tid.tidUi :: loadExtensionBody env extensionPath

/-- `AddInternalExtensionToResourceManager` (lines 174-204), `OS_WIN`
branch: `DCHECK(IsInternalExtension(extension->GetPath()))` is modelled
with debug-assertion semantics — a failed check is fatal and nothing else
runs — and it executes before any thread re-dispatch; otherwise the
function re-posts itself to `TID_IO` and registers a binary-resource
provider for the extension origin at priority 50. -/
def addInternalExtensionToResourceManager (env : Env) (cur : Tid) (ext : CefExtension) :
    List Event :=
  if isInternalExtension env.resourcesPath ext.path then
    if cur = Tid.tidIo then
      [Event.registerProvider (getExtensionOrigin ext.identifier)
        (getInternalExtensionResourcePath env.resourcesPath ext.path) 50]
    else
      Event.repost Tid.tidIo ::
        [Event.registerProvider (getExtensionOrigin ext.identifier)
          (getInternalExtensionResourcePath env.resourcesPath ext.path) 50]
  else [Event.assertFail]

/-- The manifests delivered to the continuation along a trace. -/
def deliveries (tr : List Event) : List (Option CefDict) :=
  tr.filterMap fun e =>
    match e with
    | Event.deliver m _ => some m
    | _ => none

/-- The number of `LOG(ERROR)` statements executed along a trace. -/
def logErrorCount (tr : List Event) : Nat :=
  tr.countP fun e =>
    match e with
    | Event.logError => true
    | _ => false

/-- The resource paths for which a binary-resource read was attempted. -/
def readAttempts (tr : List Event) : List Str :=
  tr.filterMap fun e =>
    match e with
    | Event.readAttempt p => some p
    | _ => none

/-- Checks that every continuation delivery in a trace happens on
`TID_UI`. -/
def deliversOnlyOnUi (tr : List Event) : Bool :=
  tr.all fun e =>
    match e with
    | Event.deliver _ Tid.tidUi => true
    | Event.deliver _ _ => false
    | _ => true

/-- A continuation that records its invocation as a `deliver` event,
used to observe manifest delivery. -/
def recordCallback : ManifestCallback := fun m tid => [Event.deliver m tid]

/-- The first path segment: the characters before the first `'/'`. -/
def firstSegment (l : Str) : Str := l.takeWhile fun c => c != '/'

/-- An environment whose resource loads always fail, used as a concrete
test environment. -/
def env0 : Env :=
  { resourcesPath := []
    loadBinaryResource := fun _ => none
    parseJson := fun _ => none }

/-- Concrete extension path `"ext"` used in witnesses. -/
def extPath0 : Str := "ext".data

/-- Concrete non-internal path `"other/x"` used in witnesses. -/
def otherPath : Str := "other/x".data

/-- Concrete extension used in the popup round-trip witness. -/
def ext0 : CefExtension :=
  { path := []
    identifier := "abc123".data
    manifest := [(browserActionKey, CefValue.dict
      [(defaultPopupKey, CefValue.str ("popup.html".data))])] }

/-- The `browser_action` dictionary of `ext0`. -/
def ba0 : CefDict := [(defaultPopupKey, CefValue.str ("popup.html".data))]

/-- The expected popup URL of `ext0`. -/
def expectedUrl0 : Str := "chrome-extension://abc123/popup.html".data

/-- An extension with an empty manifest, used in witnesses. -/
def extEmpty : CefExtension :=
  { path := []
    identifier := []
    manifest := [] }

/-- An extension with a non-internal path, used in the registration
precondition witness. -/
def extOther : CefExtension :=
  { path := otherPath
    identifier := []
    manifest := [] }

/-- Concrete resources root `"res/"` used in the idempotence
counterexample. -/
def resRoot : Str := "res/".data

/-- Concrete path `"res/res/x"` used in the idempotence counterexample. -/
def resResX : Str := "res/res/x".data

/-- Concrete path `"a\b"` used in the idempotence witness. -/
def backslashPath : Str := "a\\b".data

end ExtensionUtil

namespace ExtensionUtil

lemma prefixOf_iff (l₁ l₂ : Str) : l₁.isPrefixOf l₂ = true ↔ l₁ <+: l₂ := by
  exact List.isPrefixOf_iff_prefix

lemma isEmpty_false_of_ne_nil {l : Str} (h : l ≠ []) : l.isEmpty = false := by
  cases l with
  | nil => exact absurd rfl h
  | cons a t => rfl

lemma normChar_idem (c : Char) : normChar (normChar c) = normChar c := by
  unfold normChar
  by_cases h : c = '\\'
  · subst h; decide
  · simp [h]

lemma map_normChar_idem (l : Str) : (l.map normChar).map normChar = l.map normChar := by
  induction l with
  | nil => rfl
  | cons a t ih => simp [List.map_cons, ih, normChar_idem]

lemma getInternalPath_no_strip (root l : Str)
    (h : (!root.isEmpty && root.isPrefixOf l) = false) :
    getInternalPath root l = l.map normChar := by
  unfold getInternalPath
  simp [h]

lemma getInternalPath_append (root x : Str) :
    getInternalPath root (root ++ x) = x.map normChar := by
  cases root with
  | nil => simp [getInternalPath]
  | cons a t =>
      have hpre : (a :: t).isPrefixOf ((a :: t) ++ x) = true :=
        (prefixOf_iff _ _).mpr ⟨x, rfl⟩
      simp [getInternalPath, hpre, List.drop_left]

lemma map_normChar_setPageColor : setPageColor.map normChar = setPageColor := by decide

lemma firstSegment_setPageColor_slash (r : Str) :
    firstSegment (setPageColor ++ '/' :: r) = setPageColor := rfl

lemma run_deliversOnlyOnUi (cur : Tid) (m : Option CefDict) :
    deliversOnlyOnUi (runManifestCallback recordCallback cur m) = true := by
  unfold runManifestCallback
  by_cases hc : cur = Tid.tidUi
  · subst hc
    rw [if_pos rfl]
    simp [recordCallback, deliversOnlyOnUi]
  · rw [if_neg hc]
    simp [recordCallback, deliversOnlyOnUi]

lemma normChar_slash : normChar '/' = '/' := rfl

lemma readAttempts_repost (t : Tid) (tr : List Event) :
    readAttempts (Event.repost t :: tr) = readAttempts tr := rfl

lemma deliversOnlyOnUi_repost (t : Tid) (tr : List Event) :
    deliversOnlyOnUi (Event.repost t :: tr) = deliversOnlyOnUi tr := by
  simp [deliversOnlyOnUi]

lemma getInternalManifest_file (env : Env) (cb : ManifestCallback) (p : Str) :
    getInternalManifest env cb Tid.tidFile p = getInternalManifestBody env cb p := rfl

lemma getInternalManifest_not_file (env : Env) (cb : ManifestCallback) (cur : Tid)
    (p : Str) (h : cur ≠ Tid.tidFile) :
    getInternalManifest env cb cur p =
      Event.repost Tid.tidFile :: getInternalManifestBody env cb p := by
  unfold getInternalManifest
  rw [if_neg h]

lemma loadExtension_ui (env : Env) (p : Str) :
    loadExtension env Tid.tidUi p = loadExtensionBody env p := rfl

lemma loadExtension_not_ui (env : Env) (cur : Tid) (p : Str) (h : cur ≠ Tid.tidUi) :
    loadExtension env cur p = Event.repost Tid.tidUi :: loadExtensionBody env p := by
  unfold loadExtension
  rw [if_neg h]

lemma loadExtensionBody_internal (env : Env) (p : Str)
    (h : isInternalExtension env.resourcesPath p = true) :
    loadExtensionBody env p =
      getInternalManifest env (loadExtensionWithManifest p) Tid.tidUi p := by
  unfold loadExtensionBody
  rw [h, if_pos rfl]

lemma loadExtensionBody_external (env : Env) (p : Str)
    (h : isInternalExtension env.resourcesPath p = false) :
    loadExtensionBody env p = [Event.engineLoad p none Tid.tidUi] := by
  unfold loadExtensionBody
  rw [h, if_neg Bool.false_ne_true]

/-- C1: `IsInternalExtension(path)` is true iff, after stripping the
bundled-resources prefix (when the path starts with it) and normalizing
`'\\'` separators to `'/'`, the remaining string equals the allowlisted
name `set_page_color` or begins with `set_page_color/`; in particular
`root ++ name ++ "/" ++ s` and `root ++ name` classify as internal for
every suffix `s`, and any path whose stripped, normalized form has a
non-allowlisted first segment classifies as external. -/
theorem c1_isInternalExtension_characterization :
    (∀ root path : Str, isInternalExtension root path = true ↔
      (getInternalPath root path = setPageColor ∨
        setPageColor ++ ['/'] <+: getInternalPath root path)) ∧
    (∀ root s : Str,
      isInternalExtension root (root ++ setPageColor ++ '/' :: s) = true) ∧
    (∀ root : Str, isInternalExtension root (root ++ setPageColor) = true) ∧
    (∀ root path : Str, firstSegment (getInternalPath root path) ≠ setPageColor →
      isInternalExtension root path = false) := by
  have hmain : ∀ root path : Str, isInternalExtension root path = true ↔
      (getInternalPath root path = setPageColor ∨
        setPageColor ++ ['/'] <+: getInternalPath root path) := by
    intro root path
    unfold isInternalExtension internalExtensions
    simp [List.any_cons, List.any_nil, Bool.or_eq_true, beq_iff_eq, prefixOf_iff]
  have h2 : ∀ root s : Str,
      isInternalExtension root (root ++ setPageColor ++ '/' :: s) = true := by
    intro root s
    apply (hmain _ _).mpr
    right
    have hgip : getInternalPath root (root ++ setPageColor ++ '/' :: s) =
        setPageColor ++ '/' :: s.map normChar := by
      rw [List.append_assoc, getInternalPath_append, List.map_append,
        map_normChar_setPageColor, List.map_cons, normChar_slash]
    rw [hgip]
    exact ⟨s.map normChar, by simp⟩
  have h3 : ∀ root : Str, isInternalExtension root (root ++ setPageColor) = true := by
    intro root
    apply (hmain _ _).mpr
    left
    rw [getInternalPath_append, map_normChar_setPageColor]
  have h4 : ∀ root path : Str, firstSegment (getInternalPath root path) ≠ setPageColor →
      isInternalExtension root path = false := by
    intro root path hne
    cases hb : isInternalExtension root path with
    | false => rfl
    | true =>
        exfalso
        rcases (hmain root path).mp hb with heq | ⟨r, hr⟩
        · exact hne (by rw [heq]; rfl)
        · have hform : getInternalPath root path = setPageColor ++ '/' :: r := by
            rw [← hr]; simp
          exact hne (by rw [hform, firstSegment_setPageColor_slash])
  exact ⟨hmain, h2, h3, h4⟩

/-- Witness for C1: the concrete path `other/x` has first segment `other`
and classifies as external. -/
theorem c1_witness :
    firstSegment (getInternalPath [] otherPath) ≠ setPageColor ∧
    isInternalExtension [] otherPath = false :=
  ⟨by decide, c1_isInternalExtension_characterization.2.2.2 [] otherPath (by decide)⟩

/-- C4: when `browser_action.default_popup` is present and non-empty,
`GetExtensionURL` returns `GetExtensionOrigin(id)` concatenated with the
popup path, and `GetExtensionOrigin(id)` is exactly
`chrome-extension://` followed by the identifier and `/`. -/
theorem c4_getExtensionURL_popup :
    ∀ (ext : CefExtension) (browserAction : CefDict),
      getDictionary ext.manifest browserActionKey = some browserAction →
      getString browserAction defaultPopupKey ≠ [] →
      getExtensionURL ext =
        getExtensionOrigin ext.identifier ++ getString browserAction defaultPopupKey ∧
      getExtensionOrigin ext.identifier =
        chromeExtensionScheme ++ ext.identifier ++ ['/'] := by
  intro ext ba hba hne
  refine ⟨?_, rfl⟩
  unfold getExtensionURL
  rw [hba]
  simp [isEmpty_false_of_ne_nil hne]

/-- Witness for C4: the `abc123` / `popup.html` round trip produces
exactly `chrome-extension://abc123/popup.html`. -/
theorem c4_witness :
    getDictionary ext0.manifest browserActionKey = some ba0 ∧
    getString ba0 defaultPopupKey ≠ [] ∧
    getExtensionURL ext0 = expectedUrl0 := by
  refine ⟨rfl, by decide, ?_⟩
  have h := c4_getExtensionURL_popup ext0 ba0 rfl (by decide)
  rw [h.1]
  rfl

/-- C5: a manifest without a `browser_action` dictionary, or with an
empty `default_popup` / `default_icon` string, makes `GetExtensionURL`
and `GetExtensionIconPath` return the empty string rather than an
error. -/
theorem c5_missing_fields_yield_empty :
    ∀ (root : Str) (ext : CefExtension),
      (getDictionary ext.manifest browserActionKey = none →
        getExtensionURL ext = [] ∧ (getExtensionIconPath root ext).1 = []) ∧
      (∀ browserAction : CefDict,
        getDictionary ext.manifest browserActionKey = some browserAction →
        (getString browserAction defaultPopupKey = [] → getExtensionURL ext = []) ∧
        (getString browserAction defaultIconKey = [] →
          (getExtensionIconPath root ext).1 = [])) := by
  intro root ext
  constructor
  · intro h
    constructor
    · simp [getExtensionURL, h]
    · simp [getExtensionIconPath, h]
  · intro ba hba
    constructor
    · intro hp
      unfold getExtensionURL
      rw [hba]
      simp [hp]
    · intro hi
      unfold getExtensionIconPath
      rw [hba]
      simp [hi]

/-- Witness for C5 at the empty manifest. -/
theorem c5_witness :
    getDictionary extEmpty.manifest browserActionKey = none ∧
    getExtensionURL extEmpty = [] ∧ (getExtensionIconPath [] extEmpty).1 = [] := by
  have h := (c5_missing_fields_yield_empty [] extEmpty).1 rfl
  exact ⟨rfl, h.1, h.2⟩

/-- C6: `GetInternalExtensionResourcePath` always returns `extensions/`
prepended to the stripped, normalized relative path, independent of the
classification; `GetExtensionResourcePath` returns the internal resource
path when the path is internal and the original path unchanged otherwise,
reporting the classification through its second component. -/
theorem c6_resource_path_derivation :
    ∀ root path : Str,
      getInternalExtensionResourcePath root path =
        extensionsRoot ++ getInternalPath root path ∧
      getExtensionResourcePath root path =
        (if isInternalExtension root path then
          getInternalExtensionResourcePath root path
         else path,
         isInternalExtension root path) :=
  fun _ _ => ⟨rfl, rfl⟩

/-- C7 counterexample: with resources root `res/` and extension path
`res/res/x`, the stripped relative path `res/x` begins with the root
again, so a second application of `GetInternalPath` strips once more and
the relative suffix changes. -/
theorem c7_counterexample :
    getInternalPath resRoot (getInternalPath resRoot resResX) ≠
      getInternalPath resRoot resResX := by decide

/-- C7 amended: `GetInternalPath` (hence the relative suffix of
`GetInternalExtensionResourcePath`) is idempotent whenever the resources
root does not occur again as a prefix of the already-stripped, normalized
relative path; separator normalization alone is always idempotent. -/
theorem c7_amended_idempotence :
    ∀ root path : Str,
      (!root.isEmpty && root.isPrefixOf (getInternalPath root path)) = false →
      getInternalPath root (getInternalPath root path) = getInternalPath root path := by
  intro root path h
  rw [getInternalPath_no_strip root _ h]
  exact map_normChar_idem
    (if !root.isEmpty && root.isPrefixOf path then path.drop root.length else path)

/-- Witness for the amended C7: a backslash path under root `res/` is
normalized once and a second application changes nothing. -/
theorem c7_witness :
    (!resRoot.isEmpty && resRoot.isPrefixOf (getInternalPath resRoot backslashPath)) =
      false ∧
    getInternalPath resRoot (getInternalPath resRoot backslashPath) =
      getInternalPath resRoot backslashPath :=
  ⟨by decide, c7_amended_idempotence resRoot backslashPath (by decide)⟩

/-- C8: path classification and resource-path derivation are pure total
functions (they are total Lean functions by construction) and the empty
path classifies as external and is returned unchanged. -/
theorem c8_empty_path_external :
    ∀ root : Str,
      isInternalExtension root [] = false ∧
      getExtensionResourcePath root [] = ([], false) := by
  intro root
  have hip : getInternalPath root [] = [] := by
    unfold getInternalPath
    cases root with
    | nil => rfl
    | cons a t => rfl
  have h1 : isInternalExtension root [] = false := by
    unfold isInternalExtension
    simp only [hip]
    decide
  refine ⟨h1, ?_⟩
  simp [getExtensionResourcePath, h1]

/-- C2: on every run of the manifest pipeline, if the binary-resource load
fails, the content is empty, the JSON parse returns null, or the parsed
top-level value is not a dictionary, then the failure is logged exactly
once and `null` is delivered to the continuation exactly once; when the
content parses to a dictionary, that dictionary is delivered exactly once
and nothing is logged. -/
theorem c2_manifest_delivered_exactly_once :
    ∀ (env : Env) (cur : Tid) (extensionPath : Str),
      (env.loadBinaryResource (manifestPathOf env extensionPath) = none →
        deliveries (getInternalManifest env recordCallback cur extensionPath) = [none] ∧
        logErrorCount (getInternalManifest env recordCallback cur extensionPath) = 1) ∧
      (env.loadBinaryResource (manifestPathOf env extensionPath) = some [] →
        deliveries (getInternalManifest env recordCallback cur extensionPath) = [none] ∧
        logErrorCount (getInternalManifest env recordCallback cur extensionPath) = 1) ∧
      (∀ contents : Str,
        env.loadBinaryResource (manifestPathOf env extensionPath) = some contents →
        contents ≠ [] → env.parseJson contents = none →
        deliveries (getInternalManifest env recordCallback cur extensionPath) = [none] ∧
        logErrorCount (getInternalManifest env recordCallback cur extensionPath) = 1) ∧
      (∀ (contents : Str) (v : CefValue),
        env.loadBinaryResource (manifestPathOf env extensionPath) = some contents →
        contents ≠ [] → env.parseJson contents = some v →
        (∀ d : CefDict, v ≠ CefValue.dict d) →
        deliveries (getInternalManifest env recordCallback cur extensionPath) = [none] ∧
        logErrorCount (getInternalManifest env recordCallback cur extensionPath) = 1) ∧
      (∀ (contents : Str) (d : CefDict),
        env.loadBinaryResource (manifestPathOf env extensionPath) = some contents →
        contents ≠ [] → env.parseJson contents = some (CefValue.dict d) →
        deliveries (getInternalManifest env recordCallback cur extensionPath) = [some d] ∧
        logErrorCount (getInternalManifest env recordCallback cur extensionPath) = 0) := by
  intro env cur extensionPath
  refine ⟨?_, ?_, ?_, ?_, ?_⟩
  · intro h
    by_cases hc : cur = Tid.tidFile <;>
      simp [getInternalManifest, getInternalManifestBody, hc, h, runManifestCallback,
        recordCallback, deliveries, logErrorCount]
  · intro h
    by_cases hc : cur = Tid.tidFile <;>
      simp [getInternalManifest, getInternalManifestBody, hc, h, runManifestCallback,
        recordCallback, deliveries, logErrorCount]
  · intro contents h hne hp
    have hce := isEmpty_false_of_ne_nil hne
    by_cases hc : cur = Tid.tidFile <;>
      simp [getInternalManifest, getInternalManifestBody, hc, h, hce, hp,
        runManifestCallback, recordCallback, deliveries, logErrorCount]
  · intro contents v h hne hp hv
    have hce := isEmpty_false_of_ne_nil hne
    cases v
    case dict entries => exact absurd rfl (hv entries)
    all_goals
      by_cases hc : cur = Tid.tidFile <;>
        simp [getInternalManifest, getInternalManifestBody, hc, h, hce, hp,
          runManifestCallback, recordCallback, deliveries, logErrorCount]
  · intro contents d h hne hp
    have hce := isEmpty_false_of_ne_nil hne
    by_cases hc : cur = Tid.tidFile <;>
      simp [getInternalManifest, getInternalManifestBody, hc, h, hce, hp,
        runManifestCallback, recordCallback, deliveries, logErrorCount]

/-- Witness for C2: a failing loader delivers `null` exactly once and
logs exactly once. -/
theorem c2_witness :
    env0.loadBinaryResource (manifestPathOf env0 extPath0) = none ∧
    deliveries (getInternalManifest env0 recordCallback Tid.tidUi extPath0) = [none] ∧
    logErrorCount (getInternalManifest env0 recordCallback Tid.tidUi extPath0) = 1 := by
  have h := (c2_manifest_delivered_exactly_once env0 Tid.tidUi extPath0).1 rfl
  exact ⟨rfl, h.1, h.2⟩

/-- C3: the manifest continuation is never executed on a non-UI thread:
along every `GetInternalManifest` trace, from any entry thread and under
any environment, every delivery happens on `TID_UI`, and
`RunManifestCallback` itself always delivers on `TID_UI`. -/
theorem c3_delivery_always_on_ui :
    ∀ (env : Env) (cur : Tid) (extensionPath : Str) (m : Option CefDict),
      deliversOnlyOnUi (getInternalManifest env recordCallback cur extensionPath) =
        true ∧
      deliversOnlyOnUi (runManifestCallback recordCallback cur m) = true := by
  intro env cur extensionPath m
  have hbody :
      deliversOnlyOnUi (getInternalManifestBody env recordCallback extensionPath) =
        true := by
    unfold getInternalManifestBody
    cases hl : env.loadBinaryResource (manifestPathOf env extensionPath) with
    | none => simp [deliversOnlyOnUi, runManifestCallback, recordCallback]
    | some contents =>
        cases hce : contents.isEmpty with
        | true => simp [hce, deliversOnlyOnUi, runManifestCallback, recordCallback]
        | false =>
            cases hp : env.parseJson contents with
            | none =>
                simp [hce, hp, deliversOnlyOnUi, runManifestCallback, recordCallback]
            | some v =>
                cases v <;>
                  simp [hce, hp, deliversOnlyOnUi, runManifestCallback, recordCallback]
  refine ⟨?_, run_deliversOnlyOnUi cur m⟩
  by_cases hc : cur = Tid.tidFile
  · subst hc
    rw [getInternalManifest_file]
    exact hbody
  · rw [getInternalManifest_not_file env recordCallback cur extensionPath hc,
      deliversOnlyOnUi_repost]
    exact hbody

/-- C9: `AddInternalExtensionToResourceManager` asserts its precondition
`IsInternalExtension(extension path)` before doing anything else: for a
non-internal path it fails fast from any calling thread and registers
nothing; for an internal path the assertion never fires. -/
theorem c9_registration_precondition :
    ∀ (env : Env) (cur : Tid) (ext : CefExtension),
      (isInternalExtension env.resourcesPath ext.path = false →
        addInternalExtensionToResourceManager env cur ext = [Event.assertFail]) ∧
      (isInternalExtension env.resourcesPath ext.path = true →
        Event.assertFail ∉ addInternalExtensionToResourceManager env cur ext) := by
  intro env cur ext
  constructor
  · intro h
    simp [addInternalExtensionToResourceManager, h]
  · intro h
    by_cases hc : cur = Tid.tidIo <;>
      simp [addInternalExtensionToResourceManager, h, hc]

/-- Witness for C9 at a concrete non-internal extension path. -/
theorem c9_witness :
    isInternalExtension env0.resourcesPath extOther.path = false ∧
    addInternalExtensionToResourceManager env0 Tid.tidUi extOther =
      [Event.assertFail] :=
  ⟨by decide, (c9_registration_precondition env0 Tid.tidUi extOther).1 (by decide)⟩

/-- C10: for an external extension path, `LoadExtension` performs no
manifest read from any entry thread, and once on the UI thread it
immediately calls the engine with a null manifest; only internal paths
trigger the Disk-I/O manifest read. -/
theorem c10_external_loads_without_manifest_read :
    ∀ (env : Env) (cur : Tid) (extensionPath : Str),
      (isInternalExtension env.resourcesPath extensionPath = false →
        loadExtension env Tid.tidUi extensionPath =
          [Event.engineLoad extensionPath none Tid.tidUi] ∧
        readAttempts (loadExtension env cur extensionPath) = []) ∧
      (isInternalExtension env.resourcesPath extensionPath = true →
        readAttempts (loadExtension env cur extensionPath) =
          [manifestPathOf env extensionPath]) := by
  intro env cur extensionPath
  constructor
  · intro h
    constructor
    · rw [loadExtension_ui, loadExtensionBody_external env extensionPath h]
    · by_cases hc : cur = Tid.tidUi
      · subst hc
        rw [loadExtension_ui, loadExtensionBody_external env extensionPath h]
        rfl
      · rw [loadExtension_not_ui env cur extensionPath hc, readAttempts_repost,
          loadExtensionBody_external env extensionPath h]
        rfl
  · intro h
    have hbody : readAttempts (getInternalManifestBody env
        (loadExtensionWithManifest extensionPath) extensionPath) =
        [manifestPathOf env extensionPath] := by
      unfold getInternalManifestBody
      cases hl : env.loadBinaryResource (manifestPathOf env extensionPath) with
      | none =>
          simp [readAttempts, runManifestCallback, loadExtensionWithManifest]
      | some contents =>
          cases hce : contents.isEmpty with
          | true =>
              simp [hce, readAttempts, runManifestCallback, loadExtensionWithManifest]
          | false =>
              cases hp : env.parseJson contents with
              | none =>
                  simp [hce, hp, readAttempts, runManifestCallback,
                    loadExtensionWithManifest]
              | some v =>
                  cases v <;>
                    simp [hce, hp, readAttempts, runManifestCallback,
                      loadExtensionWithManifest]
    have hinner : readAttempts (getInternalManifest env
        (loadExtensionWithManifest extensionPath) Tid.tidUi extensionPath) =
        [manifestPathOf env extensionPath] := by
      rw [getInternalManifest_not_file env (loadExtensionWithManifest extensionPath)
        Tid.tidUi extensionPath (by simp), readAttempts_repost]
      exact hbody
    by_cases hc : cur = Tid.tidUi
    · subst hc
      rw [loadExtension_ui, loadExtensionBody_internal env extensionPath h]
      exact hinner
    · rw [loadExtension_not_ui env cur extensionPath hc, readAttempts_repost,
        loadExtensionBody_internal env extensionPath h]
      exact hinner

/-- Witness for C10 at a concrete external path. -/
theorem c10_witness :
    isInternalExtension env0.resourcesPath extPath0 = false ∧
    loadExtension env0 Tid.tidUi extPath0 =
      [Event.engineLoad extPath0 none Tid.tidUi] ∧
    readAttempts (loadExtension env0 Tid.tidFile extPath0) = [] := by
  have h := (c10_external_loads_without_manifest_read env0 Tid.tidFile extPath0).1
    (by decide)
  exact ⟨by decide, h.1, h.2⟩

end ExtensionUtil
